import Mathlib

/- A shallow embedding of src/app_v3_mvp.py: the phrase reconciliation state
machine of the Wordly caption bridge (function listen_to_wordly).  Absent JSON
fields (Python None) are modelled with Option; the console output is modelled
as a list of render commands: printing the attribution line is Cmd.banner,
an in-place rewrite (print with carriage return and no newline) is Cmd.update,
and a newline-terminated print is Cmd.commit.  Each update/commit command is
annotated with the phrase identifier the code is rendering at that point. -/

namespace Captions

/-- Module constant ATTRIBUTION_LINE of app_v3_mvp.py. -/
def ATTRIBUTION_LINE : String := "<Captioning by Wordly.ai>"

/-- Module constant SHOW_SPEAKER_NAMES (False in the source). -/
def SHOW_SPEAKER_NAMES : Bool := false

/-- Module constant SHOW_SPEAKER_CHANGES (True in the source). -/
def SHOW_SPEAKER_CHANGES : Bool := true

/-- The fields of a decoded phrase message that listen_to_wordly reads, each
optional because the Python code reads them with dict.get (the source really
spells the identifier keys with a lowercase l: phraseld, speakerld). -/
structure PhraseData where
  translatedLanguageCode : Option String := none
  phraseld : Option String := none
  translatedText : Option String := none
  isFinal : Option Bool := none
  speakerld : Option String := none
  speakerTag : Option String := none
  name : Option String := none
  deriving DecidableEq, Repr

/-- A decoded incoming message, by its type discriminator.  nonJson models a
frame that fails json.loads (the JSONDecodeError handler). -/
inductive Msg where
  | status (success : Bool) (message : String)
  | endMsg
  | phrase (d : PhraseData)
  | error (message : String)
  | other (kind : String)
  | nonJson (raw : String)
  deriving DecidableEq, Repr

/-- One console emission of listen_to_wordly. -/
inductive Cmd where
  | banner
  | update (id : Option String) (text : String)
  | commit (id : Option String) (text : String)
  deriving DecidableEq, Repr

/-- The phrase identifier a render command bears (none for the banner). -/
def Cmd.idOf : Cmd → Option (Option String)
  | .banner => none
  | .update i _ => some i
  | .commit i _ => some i

/-- The mutable state of listen_to_wordly: connection_successful and the
buffering/speaker variables of lines 65-72. -/
structure St where
  connection_successful : Bool
  current_phrase_id : Option String
  current_phrase_text : String
  finalized_phrases : List (Option String)
  last_speaker_id : Option String
  last_speaker_tag : Option String
  deriving DecidableEq, Repr

/-- Initial state (lines 65-72, 85). -/
def initSt : St :=
  { connection_successful := false
    current_phrase_id := none
    current_phrase_text := ""
    finalized_phrases := []
    last_speaker_id := none
    last_speaker_tag := none }

/-- Python set.add on the finalized-phrases set, modelled on a duplicate-free
list: append the element when it is not already present. -/
def setAdd (l : List (Option String)) (x : Option String) : List (Option String) :=
  if x ∈ l then l else l ++ [x]

/-- Scan for the match of the regex fragment [^:]+: at the start of the
character list: the first colon must occur at index at least one and be
followed by a space; returns the matched length (first-colon index plus two).
The accumulator n counts the characters already scanned. -/
def scanNameColon : List Char → Nat → Option Nat
  | [], _ => none
  | c :: rest, n =>
    if c = ':' then
      if n = 0 then none
      else
        match rest with
        | ' ' :: _ => some (n + 2)
        | _ => none
    else scanNameColon rest (n + 1)

/-- Length of the match of the anchored Python regex (>> )?([^:]+: )? against
the start of s, as used by re.sub on lines 170 and 181: greedily take a
leading ">> " when present, then optionally a run of non-colon characters
followed by ": ". -/
def pfxMatchLen (s : String) : Nat :=
  let cs := s.data
  let arrow := if cs.take 3 = ['>', '>', ' '] then 3 else 0
  arrow + (scanNameColon (cs.drop arrow) 0).getD 0

/-- existing_prefix of lines 170-171 / 181-182: the slice of the current
display text covered by the regex match. -/
def existingPfxOf (s : String) : String :=
  ⟨s.data.take (pfxMatchLen s)⟩

/-- Lines 139-143: finalize the previous phrase by rollover, printing its
buffered text with a newline and adding its id to the finalized set. -/
def rolloverFlush (s : St) : St × List Cmd :=
  if s.current_phrase_id ≠ none then
    ({ s with finalized_phrases := setAdd s.finalized_phrases s.current_phrase_id },
     [Cmd.commit s.current_phrase_id s.current_phrase_text])
  else (s, [])

/-- Lines 145-152: the speaker-change check and the display-line marker it
produces (Python truthiness of speaker_name is non-None and nonempty). -/
def speakerPfx (s : St) (speaker_id speaker_tag speaker_name : Option String) : String :=
  if speaker_id ≠ s.last_speaker_id ∨ speaker_tag ≠ s.last_speaker_tag then
    (if SHOW_SPEAKER_CHANGES then ">> " else "") ++
      (match speaker_name with
       | some n => if SHOW_SPEAKER_NAMES ∧ n ≠ "" then n ++ ": " else ""
       | none => "")
  else ""

/-- Lines 137-164: handle a NEW phrase: rollover-flush any open phrase,
compute the marker, update speaker memory unconditionally, open the new
phrase and print its first rendering in place. -/
def openNewPhrase (s : St) (phrase_id : Option String) (text : String)
    (speaker_id speaker_tag speaker_name : Option String) : St × List Cmd :=
  let r := rolloverFlush s
  let pfx := speakerPfx r.1 speaker_id speaker_tag speaker_name
  ({ r.1 with
      last_speaker_id := speaker_id
      last_speaker_tag := speaker_tag
      current_phrase_id := phrase_id
      current_phrase_text := pfx ++ text },
   r.2 ++ [Cmd.update phrase_id (pfx ++ text)])

/-- Lines 166-176: handle an UPDATE to the current phrase: recover the
existing marker from the rendered text by the regex, append the new text, and
rewrite the line in place. -/
def updateCurrentPhrase (s : St) (phrase_id : Option String) (text : String) :
    St × List Cmd :=
  let existingPfx := existingPfxOf s.current_phrase_text
  ({ s with current_phrase_text := existingPfx ++ text },
   [Cmd.update phrase_id (existingPfx ++ text)])

/-- Lines 178-196: the isFinal block: recover the marker by the regex,
re-render with a newline, add to the finalized set, and reset the buffer. -/
def finalizeStep (s : St) (phrase_id : Option String) (text : String) :
    St × List Cmd :=
  let existingPfx := existingPfxOf s.current_phrase_text
  ({ s with
      current_phrase_text := ""
      current_phrase_id := none
      finalized_phrases := setAdd s.finalized_phrases phrase_id },
   [Cmd.commit phrase_id (existingPfx ++ text)])

/-- Lines 119-196: the core phrase handler, reached only while
connection_successful: language filter, finalized-set guard, new/update
branching, then the isFinal block. -/
def processPhrase (target_lang : String) (s : St) (d : PhraseData) : St × List Cmd :=
  if d.translatedLanguageCode ≠ some target_lang then (s, [])
  else if d.phraseld ∈ s.finalized_phrases then (s, [])
  else
    let step1 :=
      if d.phraseld ≠ s.current_phrase_id then
        openNewPhrase s d.phraseld (d.translatedText.getD "")
          d.speakerld d.speakerTag d.name
      else
        updateCurrentPhrase s d.phraseld (d.translatedText.getD "")
    if d.isFinal.getD false then
      let step2 := finalizeStep step1.1 d.phraseld (d.translatedText.getD "")
      (step2.1, step1.2 ++ step2.2)
    else step1

/-- One iteration of the message loop (lines 96-208): returns the new state,
the emitted commands, and whether the loop continues (false on the two break
statements: failed status and the end message). -/
def processMsg (target_lang : String) (s : St) (m : Msg) : St × List Cmd × Bool :=
  match m with
  | .status success _message =>
    if success then ({ s with connection_successful := true }, [Cmd.banner], true)
    else (s, [], false)
  | .endMsg => (s, [], false)
  | .phrase d =>
    if s.connection_successful then
      ((processPhrase target_lang s d).1, (processPhrase target_lang s d).2, true)
    else (s, [], true)
  | .error _ => (s, [], true)
  | .other _ => (s, [], true)
  | .nonJson _ => (s, [], true)

/-- Run the message loop from a given state, stopping at the first break. -/
def runAux (target_lang : String) : List Msg → St → St × List Cmd
  | [], s => (s, [])
  | m :: ms, s =>
    let r := processMsg target_lang s m
    if r.2.2 then
      let rest := runAux target_lang ms r.1
      (rest.1, r.2.1 ++ rest.2)
    else (r.1, r.2.1)

/-- Run a whole session feed from the initial state. -/
def run (target_lang : String) (msgs : List Msg) : St × List Cmd :=
  runAux target_lang msgs initSt

/-- Whether a command is a commit bearing the given phrase id. -/
def isCommitFor (x : Option String) : Cmd → Bool
  | .commit i _ => i == x
  | _ => false

/-- Number of commit commands bearing the given phrase id in a trace. -/
def commitsFor (x : Option String) (cmds : List Cmd) : Nat :=
  cmds.countP (isCommitFor x)

/-- Number of banner emissions in a trace. -/
def bannerCount (cmds : List Cmd) : Nat :=
  cmds.countP (fun c => c == Cmd.banner)

/- ------------------------------------------------------------------ -/
/- Helper lemmas about the embedded operations.                        -/
/- ------------------------------------------------------------------ -/

theorem mem_setAdd {l : List (Option String)} {x y : Option String} :
    y ∈ setAdd l x ↔ y ∈ l ∨ y = x := by
  unfold setAdd
  split
  · constructor
    · exact Or.inl
    · rintro (h | rfl)
      · exact h
      · assumption
  · simp

theorem setAdd_append (l : List (Option String)) (x : Option String) :
    ∃ t, setAdd l x = l ++ t := by
  unfold setAdd
  split
  · exact ⟨[], (List.append_nil l).symm⟩
  · exact ⟨[x], rfl⟩

theorem self_mem_setAdd (l : List (Option String)) (x : Option String) :
    x ∈ setAdd l x := mem_setAdd.mpr (Or.inr rfl)

theorem processPhrase_filtered {tl : String} {d : PhraseData} (s : St)
    (h : d.translatedLanguageCode ≠ some tl) :
    processPhrase tl s d = (s, []) := by
  unfold processPhrase
  rw [if_pos h]

theorem processPhrase_already_finalized {tl : String} {d : PhraseData} {s : St}
    (h1 : d.translatedLanguageCode = some tl) (h2 : d.phraseld ∈ s.finalized_phrases) :
    processPhrase tl s d = (s, []) := by
  unfold processPhrase
  rw [if_neg (not_not_intro h1), if_pos h2]

theorem processPhrase_new {tl : String} {d : PhraseData} {s : St}
    (h1 : d.translatedLanguageCode = some tl) (h2 : d.phraseld ∉ s.finalized_phrases)
    (h3 : d.phraseld ≠ s.current_phrase_id) (h4 : d.isFinal.getD false = false) :
    processPhrase tl s d =
      openNewPhrase s d.phraseld (d.translatedText.getD "")
        d.speakerld d.speakerTag d.name := by
  simp [processPhrase, h1, h2, h3, h4]

theorem processPhrase_new_final {tl : String} {d : PhraseData} {s : St}
    (h1 : d.translatedLanguageCode = some tl) (h2 : d.phraseld ∉ s.finalized_phrases)
    (h3 : d.phraseld ≠ s.current_phrase_id) (h4 : d.isFinal.getD false = true) :
    processPhrase tl s d =
      ((finalizeStep (openNewPhrase s d.phraseld (d.translatedText.getD "")
          d.speakerld d.speakerTag d.name).1 d.phraseld (d.translatedText.getD "")).1,
       (openNewPhrase s d.phraseld (d.translatedText.getD "")
          d.speakerld d.speakerTag d.name).2 ++
       (finalizeStep (openNewPhrase s d.phraseld (d.translatedText.getD "")
          d.speakerld d.speakerTag d.name).1 d.phraseld (d.translatedText.getD "")).2) := by
  simp [processPhrase, h1, h2, h3, h4]

theorem processPhrase_upd {tl : String} {d : PhraseData} {s : St}
    (h1 : d.translatedLanguageCode = some tl) (h2 : d.phraseld ∉ s.finalized_phrases)
    (h3 : d.phraseld = s.current_phrase_id) (h4 : d.isFinal.getD false = false) :
    processPhrase tl s d = updateCurrentPhrase s d.phraseld (d.translatedText.getD "") := by
  have h2' : s.current_phrase_id ∉ s.finalized_phrases := h3 ▸ h2
  simp [processPhrase, h1, h2', h3, h4]

theorem processPhrase_upd_final {tl : String} {d : PhraseData} {s : St}
    (h1 : d.translatedLanguageCode = some tl) (h2 : d.phraseld ∉ s.finalized_phrases)
    (h3 : d.phraseld = s.current_phrase_id) (h4 : d.isFinal.getD false = true) :
    processPhrase tl s d =
      ((finalizeStep (updateCurrentPhrase s d.phraseld (d.translatedText.getD "")).1
          d.phraseld (d.translatedText.getD "")).1,
       (updateCurrentPhrase s d.phraseld (d.translatedText.getD "")).2 ++
       (finalizeStep (updateCurrentPhrase s d.phraseld (d.translatedText.getD "")).1
          d.phraseld (d.translatedText.getD "")).2) := by
  have h2' : s.current_phrase_id ∉ s.finalized_phrases := h3 ▸ h2
  simp [processPhrase, h1, h2', h3, h4]

theorem rolloverFlush_some {s : St} (h : s.current_phrase_id ≠ none) :
    rolloverFlush s =
      ({ s with finalized_phrases := setAdd s.finalized_phrases s.current_phrase_id },
       [Cmd.commit s.current_phrase_id s.current_phrase_text]) := by
  unfold rolloverFlush
  rw [if_pos h]

theorem rolloverFlush_none {s : St} (h : s.current_phrase_id = none) :
    rolloverFlush s = (s, []) := by
  unfold rolloverFlush
  rw [if_neg (not_not_intro h)]

/-- The key session invariant: an open phrase is never already finalized. -/
def StInv (s : St) : Prop :=
  s.current_phrase_id ≠ none → s.current_phrase_id ∉ s.finalized_phrases

theorem initSt_inv : StInv initSt := by
  intro h
  exact absurd rfl h

theorem growth_refl (a : List (Option String)) : ∃ t, a = a ++ t :=
  ⟨[], (List.append_nil _).symm⟩

theorem append_growth_trans {a b c : List (Option String)}
    (h1 : ∃ t, b = a ++ t) (h2 : ∃ t, c = b ++ t) : ∃ t, c = a ++ t := by
  obtain ⟨t1, rfl⟩ := h1
  obtain ⟨t2, rfl⟩ := h2
  exact ⟨t1 ++ t2, by simp⟩

theorem not_mem_rolloverFlush_finalized {s : St} {x : Option String}
    (hx : x ∉ s.finalized_phrases) (hcur : x ≠ s.current_phrase_id) :
    x ∉ (rolloverFlush s).1.finalized_phrases := by
  unfold rolloverFlush
  split
  · exact fun hmem => (mem_setAdd.mp hmem).elim hx hcur
  · exact hx

theorem rolloverFlush_finalized_append (s : St) :
    ∃ t, (rolloverFlush s).1.finalized_phrases = s.finalized_phrases ++ t := by
  unfold rolloverFlush
  split
  · exact setAdd_append _ _
  · exact growth_refl _

theorem processPhrase_finalized_append (tl : String) (s : St) (d : PhraseData) :
    ∃ t, (processPhrase tl s d).1.finalized_phrases = s.finalized_phrases ++ t := by
  by_cases h1 : d.translatedLanguageCode = some tl
  · by_cases h2 : d.phraseld ∈ s.finalized_phrases
    · rw [processPhrase_already_finalized h1 h2]
      exact growth_refl _
    · by_cases h3 : d.phraseld = s.current_phrase_id
      · by_cases h4 : d.isFinal.getD false = true
        · rw [processPhrase_upd_final h1 h2 h3 h4]
          simpa [finalizeStep, updateCurrentPhrase] using setAdd_append s.finalized_phrases d.phraseld
        · rw [processPhrase_upd h1 h2 h3 (Bool.not_eq_true _ ▸ h4)]
          exact ⟨[], by simp [updateCurrentPhrase]⟩
      · by_cases h4 : d.isFinal.getD false = true
        · rw [processPhrase_new_final h1 h2 h3 h4]
          refine append_growth_trans (rolloverFlush_finalized_append s) ?_
          simpa [finalizeStep, openNewPhrase] using
            setAdd_append (rolloverFlush s).1.finalized_phrases d.phraseld
        · rw [processPhrase_new h1 h2 h3 (Bool.not_eq_true _ ▸ h4)]
          simpa [openNewPhrase] using rolloverFlush_finalized_append s
  · rw [processPhrase_filtered s h1]
    exact growth_refl _

theorem processPhrase_inv (tl : String) {s : St} (d : PhraseData) (hinv : StInv s) :
    StInv (processPhrase tl s d).1 := by
  by_cases h1 : d.translatedLanguageCode = some tl
  · by_cases h2 : d.phraseld ∈ s.finalized_phrases
    · rw [processPhrase_already_finalized h1 h2]
      exact hinv
    · by_cases h3 : d.phraseld = s.current_phrase_id
      · by_cases h4 : d.isFinal.getD false = true
        · rw [processPhrase_upd_final h1 h2 h3 h4]
          intro h
          exact absurd rfl h
        · rw [processPhrase_upd h1 h2 h3 (Bool.not_eq_true _ ▸ h4)]
          intro _h
          exact h3 ▸ h2
      · by_cases h4 : d.isFinal.getD false = true
        · rw [processPhrase_new_final h1 h2 h3 h4]
          intro h
          exact absurd rfl h
        · rw [processPhrase_new h1 h2 h3 (Bool.not_eq_true _ ▸ h4)]
          intro _h
          exact not_mem_rolloverFlush_finalized h2 h3
  · rw [processPhrase_filtered s h1]
    exact hinv

theorem idOf_of_isCommitFor {x : Option String} {c : Cmd}
    (h : isCommitFor x c = true) : c.idOf = some x := by
  cases c <;> simp_all [isCommitFor, Cmd.idOf]

theorem commitsFor_eq_zero_of {x : Option String} {cmds : List Cmd}
    (h : ∀ c ∈ cmds, c.idOf ≠ some x) : commitsFor x cmds = 0 := by
  refine List.countP_eq_zero.mpr ?_
  intro c hc hcp
  exact h c hc (idOf_of_isCommitFor hcp)

theorem rolloverFlush_emits_fresh {s : St} (hinv : StInv s) :
    ∀ c ∈ (rolloverFlush s).2, ∀ i, c.idOf = some i → i ∉ s.finalized_phrases := by
  unfold rolloverFlush
  split_ifs with h
  · intro c hc i hi
    simp only [List.mem_singleton] at hc
    subst hc
    simp only [Cmd.idOf, Option.some.injEq] at hi
    subst hi
    exact hinv h
  · simp

theorem processPhrase_emits_fresh (tl : String) {s : St} (d : PhraseData)
    (hinv : StInv s) :
    ∀ c ∈ (processPhrase tl s d).2, ∀ i, c.idOf = some i →
      i ∉ s.finalized_phrases := by
  by_cases h1 : d.translatedLanguageCode = some tl
  · by_cases h2 : d.phraseld ∈ s.finalized_phrases
    · rw [processPhrase_already_finalized h1 h2]
      simp
    · by_cases h3 : d.phraseld = s.current_phrase_id
      · by_cases h4 : d.isFinal.getD false = true
        · rw [processPhrase_upd_final h1 h2 h3 h4]
          intro c hc i hi
          simp only [updateCurrentPhrase, finalizeStep, List.cons_append,
            List.nil_append, List.mem_cons, List.mem_singleton,
            List.not_mem_nil, or_false] at hc
          rcases hc with rfl | rfl <;>
            simp only [Cmd.idOf, Option.some.injEq] at hi <;>
            exact hi ▸ h2
        · rw [processPhrase_upd h1 h2 h3 (Bool.not_eq_true _ ▸ h4)]
          intro c hc i hi
          simp only [updateCurrentPhrase, List.mem_singleton] at hc
          subst hc
          simp only [Cmd.idOf, Option.some.injEq] at hi
          exact hi ▸ h2
      · by_cases h4 : d.isFinal.getD false = true
        · rw [processPhrase_new_final h1 h2 h3 h4]
          intro c hc i hi
          simp only [openNewPhrase, finalizeStep, List.append_assoc,
            List.mem_append, List.mem_cons, List.mem_singleton,
            List.not_mem_nil, or_false] at hc
          rcases hc with hc | hc | hc
          · exact rolloverFlush_emits_fresh hinv c hc i hi
          · subst hc
            simp only [Cmd.idOf, Option.some.injEq] at hi
            exact hi ▸ h2
          · subst hc
            simp only [Cmd.idOf, Option.some.injEq] at hi
            exact hi ▸ h2
        · rw [processPhrase_new h1 h2 h3 (Bool.not_eq_true _ ▸ h4)]
          intro c hc i hi
          simp only [openNewPhrase, List.mem_append, List.mem_singleton] at hc
          rcases hc with hc | hc
          · exact rolloverFlush_emits_fresh hinv c hc i hi
          · subst hc
            simp only [Cmd.idOf, Option.some.injEq] at hi
            exact hi ▸ h2
  · rw [processPhrase_filtered s h1]
    simp

theorem processPhrase_commit_mem (tl : String) (s : St) (d : PhraseData) :
    ∀ i t, Cmd.commit i t ∈ (processPhrase tl s d).2 →
      i ∈ (processPhrase tl s d).1.finalized_phrases := by
  by_cases h1 : d.translatedLanguageCode = some tl
  · by_cases h2 : d.phraseld ∈ s.finalized_phrases
    · rw [processPhrase_already_finalized h1 h2]
      simp
    · by_cases h3 : d.phraseld = s.current_phrase_id
      · by_cases h4 : d.isFinal.getD false = true
        · rw [processPhrase_upd_final h1 h2 h3 h4]
          intro i t hc
          simp only [updateCurrentPhrase, finalizeStep, List.cons_append,
            List.nil_append, List.mem_cons, List.mem_singleton,
            List.not_mem_nil, or_false] at hc
          rcases hc with hc | hc
          · exact absurd hc (by simp)
          · obtain ⟨rfl, -⟩ := Cmd.commit.inj hc
            simpa [updateCurrentPhrase, finalizeStep] using
              self_mem_setAdd s.finalized_phrases d.phraseld
        · rw [processPhrase_upd h1 h2 h3 (Bool.not_eq_true _ ▸ h4)]
          intro i t hc
          simp [updateCurrentPhrase] at hc
      · by_cases h4 : d.isFinal.getD false = true
        · rw [processPhrase_new_final h1 h2 h3 h4]
          intro i t hc
          simp only [openNewPhrase, finalizeStep, List.append_assoc,
            List.mem_append, List.mem_cons, List.mem_singleton,
            List.not_mem_nil, or_false] at hc
          rcases hc with hc | hc | hc
          · by_cases hcur : s.current_phrase_id = none
            · rw [rolloverFlush_none hcur] at hc
              simp at hc
            · rw [rolloverFlush_some hcur] at hc
              simp only [List.mem_singleton] at hc
              obtain ⟨rfl, -⟩ := Cmd.commit.inj hc
              simp only [openNewPhrase, finalizeStep]
              refine mem_setAdd.mpr (Or.inl ?_)
              rw [rolloverFlush_some hcur]
              exact self_mem_setAdd _ _
          · exact absurd hc (by simp)
          · obtain ⟨rfl, -⟩ := Cmd.commit.inj hc
            simp only [openNewPhrase, finalizeStep]
            exact self_mem_setAdd _ _
        · rw [processPhrase_new h1 h2 h3 (Bool.not_eq_true _ ▸ h4)]
          intro i t hc
          simp only [openNewPhrase, List.mem_append, List.mem_singleton] at hc
          rcases hc with hc | hc
          · by_cases hcur : s.current_phrase_id = none
            · rw [rolloverFlush_none hcur] at hc
              simp at hc
            · rw [rolloverFlush_some hcur] at hc
              simp only [List.mem_singleton] at hc
              obtain ⟨rfl, -⟩ := Cmd.commit.inj hc
              simp only [openNewPhrase]
              rw [rolloverFlush_some hcur]
              exact self_mem_setAdd _ _
          · exact absurd hc (by simp)
  · rw [processPhrase_filtered s h1]
    simp

theorem processPhrase_commitsFor_le_one (tl : String) (s : St) (d : PhraseData)
    (x : Option String) : commitsFor x (processPhrase tl s d).2 ≤ 1 := by
  by_cases h1 : d.translatedLanguageCode = some tl
  · by_cases h2 : d.phraseld ∈ s.finalized_phrases
    · rw [processPhrase_already_finalized h1 h2]
      simp [commitsFor]
    · by_cases h3 : d.phraseld = s.current_phrase_id
      · by_cases h4 : d.isFinal.getD false = true
        · rw [processPhrase_upd_final h1 h2 h3 h4]
          by_cases hpx : d.phraseld = x <;>
            simp [updateCurrentPhrase, finalizeStep, commitsFor, isCommitFor,
              List.countP_cons, List.countP_append, beq_iff_eq, hpx]
        · rw [processPhrase_upd h1 h2 h3 (Bool.not_eq_true _ ▸ h4)]
          simp [updateCurrentPhrase, commitsFor, isCommitFor, List.countP_cons]
      · by_cases h4 : d.isFinal.getD false = true
        · rw [processPhrase_new_final h1 h2 h3 h4]
          by_cases hcur : s.current_phrase_id = none
          · by_cases hpx : d.phraseld = x <;>
              simp [openNewPhrase, finalizeStep, rolloverFlush_none hcur,
                commitsFor, isCommitFor, List.countP_cons, List.countP_append,
                beq_iff_eq, hpx]
          · by_cases hcx : s.current_phrase_id = x <;> by_cases hpx : d.phraseld = x
            · exact absurd (hpx.trans hcx.symm) h3
            all_goals
              simp [openNewPhrase, finalizeStep, rolloverFlush_some hcur,
                commitsFor, isCommitFor, List.countP_cons, List.countP_append,
                beq_iff_eq, hcx, hpx]
        · rw [processPhrase_new h1 h2 h3 (Bool.not_eq_true _ ▸ h4)]
          by_cases hcur : s.current_phrase_id = none
          · simp [openNewPhrase, rolloverFlush_none hcur, commitsFor,
              isCommitFor, List.countP_cons, List.countP_append]
          · by_cases hcx : s.current_phrase_id = x <;>
              simp [openNewPhrase, rolloverFlush_some hcur, commitsFor,
                isCommitFor, List.countP_cons, List.countP_append, beq_iff_eq, hcx]
  · rw [processPhrase_filtered s h1]
    simp [commitsFor]

theorem processMsg_finalized_append (tl : String) (s : St) (m : Msg) :
    ∃ t, (processMsg tl s m).1.finalized_phrases = s.finalized_phrases ++ t := by
  cases m with
  | phrase d =>
    by_cases h : s.connection_successful
    · simpa [processMsg, h] using processPhrase_finalized_append tl s d
    · simp only [processMsg, h, if_neg]
      exact growth_refl _
  | status success message => cases success <;> exact growth_refl _
  | endMsg => exact growth_refl _
  | error message => exact growth_refl _
  | other kind => exact growth_refl _
  | nonJson raw => exact growth_refl _

theorem processMsg_inv (tl : String) {s : St} (m : Msg) (hinv : StInv s) :
    StInv (processMsg tl s m).1 := by
  cases m with
  | phrase d =>
    by_cases h : s.connection_successful
    · simpa [processMsg, h] using processPhrase_inv tl d hinv
    · simpa [processMsg, h] using hinv
  | status success message => cases success <;> exact hinv
  | endMsg => exact hinv
  | error message => exact hinv
  | other kind => exact hinv
  | nonJson raw => exact hinv

theorem processMsg_emits_fresh (tl : String) {s : St} (m : Msg) (hinv : StInv s) :
    ∀ c ∈ (processMsg tl s m).2.1, ∀ i, c.idOf = some i →
      i ∉ s.finalized_phrases := by
  cases m with
  | phrase d =>
    by_cases h : s.connection_successful
    · simpa [processMsg, h] using processPhrase_emits_fresh tl d hinv
    · simp [processMsg, h]
  | status success message => cases success <;> simp [processMsg, Cmd.idOf]
  | endMsg => simp [processMsg]
  | error message => simp [processMsg]
  | other kind => simp [processMsg]
  | nonJson raw => simp [processMsg]

theorem processMsg_commit_mem (tl : String) (s : St) (m : Msg) :
    ∀ i t, Cmd.commit i t ∈ (processMsg tl s m).2.1 →
      i ∈ (processMsg tl s m).1.finalized_phrases := by
  cases m with
  | phrase d =>
    by_cases h : s.connection_successful
    · simpa [processMsg, h] using processPhrase_commit_mem tl s d
    · simp [processMsg, h]
  | status success message => cases success <;> simp [processMsg]
  | endMsg => simp [processMsg]
  | error message => simp [processMsg]
  | other kind => simp [processMsg]
  | nonJson raw => simp [processMsg]

theorem processMsg_commitsFor_le_one (tl : String) (s : St) (m : Msg)
    (x : Option String) : commitsFor x (processMsg tl s m).2.1 ≤ 1 := by
  cases m with
  | phrase d =>
    by_cases h : s.connection_successful
    · simpa [processMsg, h] using processPhrase_commitsFor_le_one tl s d x
    · simp [processMsg, h, commitsFor]
  | status success message =>
    cases success <;> simp [processMsg, commitsFor, isCommitFor, List.countP_cons]
  | endMsg => simp [processMsg, commitsFor]
  | error message => simp [processMsg, commitsFor]
  | other kind => simp [processMsg, commitsFor]
  | nonJson raw => simp [processMsg, commitsFor]

theorem runAux_finalized_append (tl : String) (ms : List Msg) :
    ∀ s : St, ∃ t,
      (runAux tl ms s).1.finalized_phrases = s.finalized_phrases ++ t := by
  induction ms with
  | nil => intro s; exact growth_refl _
  | cons m ms ih =>
    intro s
    simp only [runAux]
    split
    · exact append_growth_trans (processMsg_finalized_append tl s m) (ih _)
    · exact processMsg_finalized_append tl s m

theorem runAux_inv (tl : String) (ms : List Msg) :
    ∀ s : St, StInv s → StInv (runAux tl ms s).1 := by
  induction ms with
  | nil => intro s h; exact h
  | cons m ms ih =>
    intro s hinv
    simp only [runAux]
    split
    · exact ih _ (processMsg_inv tl m hinv)
    · exact processMsg_inv tl m hinv

theorem runAux_no_cmd_of_finalized (tl : String) (ms : List Msg) :
    ∀ s : St, StInv s → ∀ x, x ∈ s.finalized_phrases →
      ∀ c ∈ (runAux tl ms s).2, c.idOf ≠ some x := by
  induction ms with
  | nil => intro s _ x _ c hc; simp [runAux] at hc
  | cons m ms ih =>
    intro s hinv x hx
    simp only [runAux]
    split
    · intro c hc
      rcases List.mem_append.mp hc with h | h
      · intro he
        exact processMsg_emits_fresh tl m hinv c h x he hx
      · obtain ⟨t, ht⟩ := processMsg_finalized_append tl s m
        exact ih _ (processMsg_inv tl m hinv) x
          (ht ▸ List.mem_append_left t hx) c h
    · intro c hc he
      exact processMsg_emits_fresh tl m hinv c hc x he hx

theorem runAux_commitsFor_le_one (tl : String) (ms : List Msg) :
    ∀ s : St, StInv s → ∀ x, commitsFor x (runAux tl ms s).2 ≤ 1 := by
  induction ms with
  | nil => intro s _ x; simp [runAux, commitsFor]
  | cons m ms ih =>
    intro s hinv x
    simp only [runAux]
    split
    · rw [show commitsFor x ((processMsg tl s m).2.1 ++ (runAux tl ms (processMsg tl s m).1).2) =
         commitsFor x (processMsg tl s m).2.1 +
           commitsFor x (runAux tl ms (processMsg tl s m).1).2 from
         List.countP_append _ _ _]
      by_cases hc : ∃ t, Cmd.commit x t ∈ (processMsg tl s m).2.1
      · obtain ⟨t, ht⟩ := hc
        have hx : x ∈ (processMsg tl s m).1.finalized_phrases :=
          processMsg_commit_mem tl s m x t ht
        have hzero : commitsFor x (runAux tl ms (processMsg tl s m).1).2 = 0 :=
          commitsFor_eq_zero_of
            (fun c hcm => runAux_no_cmd_of_finalized tl ms _
              (processMsg_inv tl m hinv) x hx c hcm)
        rw [hzero]
        simpa using processMsg_commitsFor_le_one tl s m x
      · have hzero : commitsFor x (processMsg tl s m).2.1 = 0 := by
          refine List.countP_eq_zero.mpr ?_
          intro c hcm hcp
          cases c with
          | banner => simp [isCommitFor] at hcp
          | update i t => simp [isCommitFor] at hcp
          | commit i t =>
            have : i = x := by simpa [isCommitFor] using hcp
            exact hc ⟨t, this ▸ hcm⟩
        rw [hzero]
        simpa using ih _ (processMsg_inv tl m hinv) x
    · exact processMsg_commitsFor_le_one tl s m x

theorem runAux_append_finalized (tl : String) (ms1 : List Msg) :
    ∀ (ms2 : List Msg) (s : St), ∃ t,
      (runAux tl (ms1 ++ ms2) s).1.finalized_phrases =
        (runAux tl ms1 s).1.finalized_phrases ++ t := by
  induction ms1 with
  | nil =>
    intro ms2 s
    simpa using runAux_finalized_append tl ms2 s
  | cons m ms ih =>
    intro ms2 s
    simp only [List.cons_append, runAux]
    by_cases h : (processMsg tl s m).2.2 = true
    · simp only [h, if_true]
      exact ih ms2 _
    · simp only [h, if_false]
      exact growth_refl _

theorem runAux_ext_suffix (tl : String) {l1 l2 : List Msg}
    (h : ∀ s, runAux tl l1 s = runAux tl l2 s) :
    ∀ (ms1 : List Msg) (s : St),
      runAux tl (ms1 ++ l1) s = runAux tl (ms1 ++ l2) s := by
  intro ms1
  induction ms1 with
  | nil => intro s; simpa using h s
  | cons m ms ih =>
    intro s
    simp only [List.cons_append, runAux, List.append_eq]
    rw [ih]

theorem runAux_status_false (tl : String) (message : String) (ms2 : List Msg)
    (s : St) : runAux tl (Msg.status false message :: ms2) s = (s, []) := rfl

/- ------------------------------------------------------------------ -/
/- Claim theorems.                                                     -/
/- ------------------------------------------------------------------ -/

/-- C1: over any session feed, each phraseId bears at most one Commit in the
whole output trace, and once a phraseId is in the finalized set no further
Update or Commit command bearing it is ever emitted by the rest of the run
(later events with that id are no-ops). -/
theorem at_most_once_commit (tl : String) (msgs : List Msg) (x : Option String) :
    commitsFor x (run tl msgs).2 ≤ 1 ∧
    ∀ ms1 ms2, x ∈ (runAux tl ms1 initSt).1.finalized_phrases →
      ∀ c ∈ (runAux tl ms2 (runAux tl ms1 initSt).1).2, c.idOf ≠ some x := by
  constructor
  · exact runAux_commitsFor_le_one tl msgs initSt initSt_inv x
  · intro ms1 ms2 hx c hc
    exact runAux_no_cmd_of_finalized tl ms2 _
      (runAux_inv tl ms1 initSt initSt_inv) x hx c hc

/-- Witness for at_most_once_commit: phrase 1 is finalized by an isFinal
event, then a later event bearing id 1 arrives and produces no command. -/
theorem at_most_once_commit_witness :
    commitsFor (some "1")
      (run "en" [Msg.status true "ok",
        Msg.phrase { translatedLanguageCode := some "en", phraseld := some "1",
                     translatedText := some "done", isFinal := some true },
        Msg.phrase { translatedLanguageCode := some "en", phraseld := some "1",
                     translatedText := some "again" }]).2 ≤ 1 ∧
    ∀ c ∈ (runAux "en"
        [Msg.phrase { translatedLanguageCode := some "en", phraseld := some "1",
                      translatedText := some "again" }]
        (runAux "en" [Msg.status true "ok",
          Msg.phrase { translatedLanguageCode := some "en", phraseld := some "1",
                       translatedText := some "done", isFinal := some true }]
          initSt).1).2,
      c.idOf ≠ some (some "1") :=
  ⟨(at_most_once_commit "en" [Msg.status true "ok",
      Msg.phrase { translatedLanguageCode := some "en", phraseld := some "1",
                   translatedText := some "done", isFinal := some true },
      Msg.phrase { translatedLanguageCode := some "en", phraseld := some "1",
                   translatedText := some "again" }] (some "1")).1,
   fun c hc =>
    (at_most_once_commit "en" [Msg.status true "ok",
      Msg.phrase { translatedLanguageCode := some "en", phraseld := some "1",
                   translatedText := some "done", isFinal := some true },
      Msg.phrase { translatedLanguageCode := some "en", phraseld := some "1",
                   translatedText := some "again" }] (some "1")).2
      [Msg.status true "ok",
       Msg.phrase { translatedLanguageCode := some "en", phraseld := some "1",
                    translatedText := some "done", isFinal := some true }]
      [Msg.phrase { translatedLanguageCode := some "en", phraseld := some "1",
                    translatedText := some "again" }]
      (by decide) c hc⟩

/-- C10: after processing any prefix of the feed, an open phrase id is never
a member of the finalized set, and the finalized set only ever grows (the
set after the whole feed extends the set after any prefix). -/
theorem open_phrase_invariant (tl : String) (msgs : List Msg) :
    ((run tl msgs).1.current_phrase_id ≠ none →
      (run tl msgs).1.current_phrase_id ∉ (run tl msgs).1.finalized_phrases) ∧
    ∀ ms1 ms2, msgs = ms1 ++ ms2 → ∃ t,
      (run tl msgs).1.finalized_phrases =
        (run tl ms1).1.finalized_phrases ++ t := by
  constructor
  · exact runAux_inv tl msgs initSt initSt_inv
  · rintro ms1 ms2 rfl
    exact runAux_append_finalized tl ms1 ms2 initSt

/-- Witness for open_phrase_invariant: after a status and one live (non
final) phrase event, the open phrase id 1 is not finalized, and the
finalized set extends the one of the one-message prefix. -/
theorem open_phrase_invariant_witness :
    (run "en" [Msg.status true "ok",
       Msg.phrase { translatedLanguageCode := some "en", phraseld := some "1",
                    translatedText := some "live" }]).1.current_phrase_id ∉
      (run "en" [Msg.status true "ok",
       Msg.phrase { translatedLanguageCode := some "en", phraseld := some "1",
                    translatedText := some "live" }]).1.finalized_phrases ∧
    ∃ t, (run "en" [Msg.status true "ok",
       Msg.phrase { translatedLanguageCode := some "en", phraseld := some "1",
                    translatedText := some "live" }]).1.finalized_phrases =
      (run "en" [Msg.status true "ok"]).1.finalized_phrases ++ t :=
  ⟨(open_phrase_invariant "en" [Msg.status true "ok",
      Msg.phrase { translatedLanguageCode := some "en", phraseld := some "1",
                   translatedText := some "live" }]).1 (by decide),
   (open_phrase_invariant "en" [Msg.status true "ok",
      Msg.phrase { translatedLanguageCode := some "en", phraseld := some "1",
                   translatedText := some "live" }]).2
     [Msg.status true "ok"]
     [Msg.phrase { translatedLanguageCode := some "en", phraseld := some "1",
                   translatedText := some "live" }] rfl⟩

/-- C5: phrase events are processed only while the session is active: a
phrase message arriving while connection_successful is false is dropped with
no command and no state change, and a failed status message terminates the
loop, so whatever follows it in the feed is never processed at all. -/
theorem session_gating (tl : String) :
    (∀ (s : St) (d : PhraseData), s.connection_successful = false →
      processMsg tl s (Msg.phrase d) = (s, [], true)) ∧
    (∀ (ms1 : List Msg) (message : String) (ms2 : List Msg),
      run tl (ms1 ++ Msg.status false message :: ms2) =
        run tl (ms1 ++ [Msg.status false message])) := by
  constructor
  · intro s d h
    simp [processMsg, h]
  · intro ms1 message ms2
    exact runAux_ext_suffix tl
      (fun s => by rw [runAux_status_false, runAux_status_false]) ms1 initSt

/-- Witness for session_gating: a phrase event before any status
confirmation is a no-op, and a feed whose second message is a failed status
produces the same run as the feed truncated right after that status. -/
theorem session_gating_witness :
    (initSt.connection_successful = false ∧
      processMsg "en" initSt
        (Msg.phrase { translatedLanguageCode := some "en", phraseld := some "1",
                      translatedText := some "early" }) = (initSt, [], true)) ∧
    run "en" ([Msg.other "users"] ++ Msg.status false "bad code" ::
        [Msg.phrase { translatedLanguageCode := some "en", phraseld := some "1",
                      translatedText := some "late" }]) =
      run "en" ([Msg.other "users"] ++ [Msg.status false "bad code"]) :=
  ⟨⟨rfl, (session_gating "en").1 initSt
      { translatedLanguageCode := some "en", phraseld := some "1",
        translatedText := some "early" } rfl⟩,
   (session_gating "en").2 [Msg.other "users"] "bad code"
     [Msg.phrase { translatedLanguageCode := some "en", phraseld := some "1",
                   translatedText := some "late" }]⟩

/-- C6: a phrase event whose language code differs from the configured
target language produces no render command and leaves the whole buffer state
(open phrase, finalized set, speaker memory) unchanged. -/
theorem language_filter_noop (tl : String) (s : St) (d : PhraseData)
    (h : d.translatedLanguageCode ≠ some tl) :
    (processPhrase tl s d).2 = [] ∧ (processPhrase tl s d).1 = s := by
  rw [processPhrase_filtered s h]
  exact ⟨rfl, rfl⟩

/-- Witness for language_filter_noop: a French event in an English session
is dropped without effect. -/
theorem language_filter_noop_witness :
    ((some "fr" : Option String) ≠ some "en") ∧
    (processPhrase "en" initSt
        { translatedLanguageCode := some "fr", phraseld := some "1",
          translatedText := some "bonjour" }).2 = [] ∧
    (processPhrase "en" initSt
        { translatedLanguageCode := some "fr", phraseld := some "1",
          translatedText := some "bonjour" }).1 = initSt :=
  ⟨by decide, language_filter_noop "en" initSt
    { translatedLanguageCode := some "fr", phraseld := some "1",
      translatedText := some "bonjour" } (by decide)⟩

/-- C3: the code evaluated at a failing input.  Phrase 1 opens with the empty
marker and body text "Note: hi".  On the in-place update the code re-derives
the marker from the rendered text with the regex, misparses "Note: " as a
speaker-name marker, and emits Update("Note: Note: hi there") where the claim
requires the opening marker (empty) plus the latest text "Note: hi there". -/
theorem regex_pfx_instability_trace :
    (run "en" [Msg.status true "ok",
      Msg.phrase { translatedLanguageCode := some "en", phraseld := some "1",
                   translatedText := some "Note: hi" },
      Msg.phrase { translatedLanguageCode := some "en", phraseld := some "1",
                   translatedText := some "Note: hi there" }]).2 =
      [Cmd.banner, Cmd.update (some "1") "Note: hi",
       Cmd.update (some "1") "Note: Note: hi there"] := by decide

/-- C4: the code evaluated at a failing input.  Phrase 3 is open and
unfinalized when the end message arrives; the loop just breaks without any
flush, so no Commit bearing id 3 is ever emitted and the buffered text is
silently dropped, against the claim. -/
theorem end_drops_open_phrase_trace :
    ((run "en" [Msg.status true "ok",
        Msg.phrase { translatedLanguageCode := some "en", phraseld := some "3",
                     translatedText := some "buffered" },
        Msg.endMsg]).2 =
      [Cmd.banner, Cmd.update (some "3") "buffered"]) ∧
    commitsFor (some "3")
      (run "en" [Msg.status true "ok",
        Msg.phrase { translatedLanguageCode := some "en", phraseld := some "3",
                     translatedText := some "buffered" },
        Msg.endMsg]).2 = 0 :=
  ⟨by decide, by decide⟩

/-- C8: the code evaluated at a failing input.  Two successful status
messages each print the attribution line, so the banner appears twice in one
session, against the exactly-once claim (and against the comment in the code
itself calling it the one-time attribution line). -/
theorem attribution_twice_trace :
    (run "en" [Msg.status true "ok", Msg.status true "ok"]).2 =
      [Cmd.banner, Cmd.banner] ∧
    bannerCount (run "en" [Msg.status true "ok", Msg.status true "ok"]).2 = 2 :=
  ⟨by decide, by decide⟩

/-- C9 counterexample: a phrase event missing the phrase identifier (with
text "x") in an active session is NOT a no-op: it emits an Update command
and changes the buffered display text, against the claim. -/
theorem malformed_not_noop_counterexample :
    ((run "en" [Msg.status true "ok",
        Msg.phrase { translatedLanguageCode := some "en",
                     translatedText := some "x" }]).2 =
      [Cmd.banner, Cmd.update none "x"]) ∧
    (run "en" [Msg.status true "ok",
        Msg.phrase { translatedLanguageCode := some "en",
                     translatedText := some "x" }]).1.current_phrase_text
      = "x" :=
  ⟨by decide, by decide⟩

/-- C9 (amended): only a frame that fails JSON decoding is skipped as a
warning no-op; a decoded phrase event with missing fields is instead
processed by the normal buffer logic with defaults substituted (empty text,
non-final, null identifier, null speaker attributes), and no phrase event,
however malformed, terminates the session. -/
theorem malformed_events_behavior (tl : String) :
    (∀ (s : St) (raw : String),
      processMsg tl s (Msg.nonJson raw) = (s, [], true)) ∧
    (∀ (s : St) (d : PhraseData),
      (processMsg tl s (Msg.phrase d)).2.2 = true) ∧
    (∀ (s : St) (d : PhraseData), processPhrase tl s d =
      processPhrase tl s { d with
        translatedText := some (d.translatedText.getD ""),
        isFinal := some (d.isFinal.getD false) }) := by
  refine ⟨fun s raw => rfl, fun s d => ?_, fun s d => ?_⟩
  · by_cases h : s.connection_successful <;> simp [processMsg, h]
  · obtain ⟨lc, pid, tt, fin, sid, stag, nm⟩ := d
    cases tt <;> cases fin <;> rfl

/-- C2 counterexample: with phrase 1 open, an event for the different phrase
2 that itself carries isFinal=true commits phrase 2 in the same call, so the
open-phrase slot ends up empty, not occupied by phrase 2 as the claim
states. -/
theorem rollover_slot_counterexample :
    ((run "en" [Msg.status true "ok",
        Msg.phrase { translatedLanguageCode := some "en", phraseld := some "1",
                     translatedText := some "partial" }]).1.current_phrase_id
      = some "1") ∧
    ((some "2" : Option String) ∉ (run "en" [Msg.status true "ok",
        Msg.phrase { translatedLanguageCode := some "en", phraseld := some "1",
                     translatedText := some "partial" }]).1.finalized_phrases) ∧
    ((processPhrase "en"
        (run "en" [Msg.status true "ok",
          Msg.phrase { translatedLanguageCode := some "en", phraseld := some "1",
                       translatedText := some "partial" }]).1
        { translatedLanguageCode := some "en", phraseld := some "2",
          translatedText := some "new",
          isFinal := some true }).1.current_phrase_id ≠ some "2") ∧
    ((processPhrase "en"
        (run "en" [Msg.status true "ok",
          Msg.phrase { translatedLanguageCode := some "en", phraseld := some "1",
                       translatedText := some "partial" }]).1
        { translatedLanguageCode := some "en", phraseld := some "2",
          translatedText := some "new",
          isFinal := some true }).1.current_phrase_id = none) :=
  ⟨by decide, by decide, by decide, by decide⟩

/-- C2 (amended): if phrase A is open and an event for a different,
not-yet-finalized phrase B arrives in the target language, exactly one
Commit carrying the current display text of A is emitted before any render
command for B, the id of A joins the finalized set, and the open-phrase slot
is then occupied by B — unless the event for B itself carries isFinal=true,
in which case B is committed in the same call and the slot is left empty
(with B finalized as well). -/
theorem rollover_flush_amended (tl : String) (s : St) (d : PhraseData)
    (hopen : s.current_phrase_id ≠ none)
    (hlang : d.translatedLanguageCode = some tl)
    (hB : d.phraseld ≠ s.current_phrase_id)
    (hBfin : d.phraseld ∉ s.finalized_phrases) :
    ∃ rest, (processPhrase tl s d).2 =
        Cmd.commit s.current_phrase_id s.current_phrase_text :: rest ∧
      (∀ c ∈ rest, c.idOf = some d.phraseld) ∧
      commitsFor s.current_phrase_id (processPhrase tl s d).2 = 1 ∧
      s.current_phrase_id ∈ (processPhrase tl s d).1.finalized_phrases ∧
      (d.isFinal.getD false = false →
        (processPhrase tl s d).1.current_phrase_id = d.phraseld) ∧
      (d.isFinal.getD false = true →
        (processPhrase tl s d).1.current_phrase_id = none ∧
          d.phraseld ∈ (processPhrase tl s d).1.finalized_phrases) := by
  have hpb : (d.phraseld == s.current_phrase_id) = false := by
    rw [beq_eq_false_iff_ne]
    exact hB
  by_cases h4 : d.isFinal.getD false = true
  · rw [processPhrase_new_final hlang hBfin hB h4]
    simp only [openNewPhrase, finalizeStep, rolloverFlush_some hopen,
      List.cons_append, List.nil_append, List.append_assoc]
    refine ⟨_, rfl, ?_, ?_, ?_, ?_, ?_⟩
    · intro c hc
      simp only [List.mem_cons, List.not_mem_nil, or_false] at hc
      rcases hc with rfl | rfl <;> rfl
    · simp [commitsFor, isCommitFor, List.countP_cons, hpb]
    · exact mem_setAdd.mpr (Or.inl (self_mem_setAdd _ _))
    · intro hh
      simp [hh] at h4
    · intro _hh
      exact ⟨by trivial, self_mem_setAdd _ _⟩
  · rw [processPhrase_new hlang hBfin hB (Bool.not_eq_true _ ▸ h4)]
    simp only [openNewPhrase, rolloverFlush_some hopen,
      List.cons_append, List.nil_append]
    refine ⟨_, rfl, ?_, ?_, ?_, ?_, ?_⟩
    · intro c hc
      simp only [List.mem_singleton] at hc
      subst hc
      rfl
    · simp [commitsFor, isCommitFor, List.countP_cons, hpb]
    · exact self_mem_setAdd _ _
    · intro _hh
      trivial
    · intro hh
      exact absurd hh h4

/-- Witness for rollover_flush_amended: phrase 1 is open with text "partial"
and a live (non final) event for phrase 2 arrives. -/
theorem rollover_flush_amended_witness :
    ∃ rest, (processPhrase "en"
        { connection_successful := true, current_phrase_id := some "1",
          current_phrase_text := "partial", finalized_phrases := [],
          last_speaker_id := none, last_speaker_tag := none }
        { translatedLanguageCode := some "en", phraseld := some "2",
          translatedText := some "new" }).2 =
        Cmd.commit (some "1") "partial" :: rest ∧
      (∀ c ∈ rest, c.idOf = some (some "2")) ∧
      commitsFor (some "1")
        (processPhrase "en"
          { connection_successful := true, current_phrase_id := some "1",
            current_phrase_text := "partial", finalized_phrases := [],
            last_speaker_id := none, last_speaker_tag := none }
          { translatedLanguageCode := some "en", phraseld := some "2",
            translatedText := some "new" }).2 = 1 ∧
      (some "1" : Option String) ∈ (processPhrase "en"
          { connection_successful := true, current_phrase_id := some "1",
            current_phrase_text := "partial", finalized_phrases := [],
            last_speaker_id := none, last_speaker_tag := none }
          { translatedLanguageCode := some "en", phraseld := some "2",
            translatedText := some "new" }).1.finalized_phrases ∧
      ((false : Bool) = false →
        (processPhrase "en"
          { connection_successful := true, current_phrase_id := some "1",
            current_phrase_text := "partial", finalized_phrases := [],
            last_speaker_id := none, last_speaker_tag := none }
          { translatedLanguageCode := some "en", phraseld := some "2",
            translatedText := some "new" }).1.current_phrase_id = some "2") ∧
      ((false : Bool) = true →
        (processPhrase "en"
          { connection_successful := true, current_phrase_id := some "1",
            current_phrase_text := "partial", finalized_phrases := [],
            last_speaker_id := none, last_speaker_tag := none }
          { translatedLanguageCode := some "en", phraseld := some "2",
            translatedText := some "new" }).1.current_phrase_id = none ∧
        (some "2" : Option String) ∈ (processPhrase "en"
          { connection_successful := true, current_phrase_id := some "1",
            current_phrase_text := "partial", finalized_phrases := [],
            last_speaker_id := none, last_speaker_tag := none }
          { translatedLanguageCode := some "en", phraseld := some "2",
            translatedText := some "new" }).1.finalized_phrases) :=
  rollover_flush_amended "en"
    { connection_successful := true, current_phrase_id := some "1",
      current_phrase_text := "partial", finalized_phrases := [],
      last_speaker_id := none, last_speaker_tag := none }
    { translatedLanguageCode := some "en", phraseld := some "2",
      translatedText := some "new" }
    (by decide) (by decide) (by decide) (by decide)

/-- C7 counterexample: with speaker-change markers enabled, the FIRST phrase
of the session, from speaker A, already carries the ">> " marker, because
speaker memory starts null and the code treats any non-null speaker as a
change; the claim says the prefix of phrase 1 carries no marker when A is
the first speaker. -/
theorem first_speaker_marker_counterexample :
    (run "en" [Msg.status true "ok",
      Msg.phrase { translatedLanguageCode := some "en", phraseld := some "1",
                   translatedText := some "hello", speakerld := some "A" },
      Msg.phrase { translatedLanguageCode := some "en", phraseld := some "2",
                   translatedText := some "there", speakerld := some "B" }]).2 =
      [Cmd.banner, Cmd.update (some "1") ">> hello",
       Cmd.commit (some "1") ">> hello",
       Cmd.update (some "2") ">> there"] := by decide

/-- C7 (amended): for phrase 1 from speaker A followed by phrase 2 from a
different speaker B (markers enabled, names disabled as configured), phrase
2 opens with the ">> " marker; phrase 1 also opens with the marker exactly
when the attributes of A are not both null, since speaker memory starts
null; and speaker memory is set to the opening speaker attributes at every
phrase open, unconditionally. -/
theorem speaker_change_amended (aId aTag bId bTag : Option String)
    (t1 t2 : String) (hab : aId ≠ bId ∨ aTag ≠ bTag) :
    ((run "en" [Msg.status true "ok",
        Msg.phrase { translatedLanguageCode := some "en", phraseld := some "1",
                     translatedText := some t1, speakerld := aId,
                     speakerTag := aTag },
        Msg.phrase { translatedLanguageCode := some "en", phraseld := some "2",
                     translatedText := some t2, speakerld := bId,
                     speakerTag := bTag }]).2 =
      [Cmd.banner,
       Cmd.update (some "1")
         ((if aId ≠ none ∨ aTag ≠ none then ">> " else "") ++ t1),
       Cmd.commit (some "1")
         ((if aId ≠ none ∨ aTag ≠ none then ">> " else "") ++ t1),
       Cmd.update (some "2") (">> " ++ t2)]) ∧
    (run "en" [Msg.status true "ok",
        Msg.phrase { translatedLanguageCode := some "en", phraseld := some "1",
                     translatedText := some t1, speakerld := aId,
                     speakerTag := aTag },
        Msg.phrase { translatedLanguageCode := some "en", phraseld := some "2",
                     translatedText := some t2, speakerld := bId,
                     speakerTag := bTag }]).1.last_speaker_id
      = bId ∧
    (run "en" [Msg.status true "ok",
        Msg.phrase { translatedLanguageCode := some "en", phraseld := some "1",
                     translatedText := some t1, speakerld := aId,
                     speakerTag := aTag },
        Msg.phrase { translatedLanguageCode := some "en", phraseld := some "2",
                     translatedText := some t2, speakerld := bId,
                     speakerTag := bTag }]).1.last_speaker_tag
      = bTag := by
  have hch2 : bId ≠ aId ∨ bTag ≠ aTag := by
    rcases hab with h | h
    · exact Or.inl (Ne.symm h)
    · exact Or.inr (Ne.symm h)
  by_cases hch1 : aId ≠ none ∨ aTag ≠ none <;>
    simp [run, runAux, processMsg, processPhrase, openNewPhrase, rolloverFlush,
      updateCurrentPhrase, finalizeStep, speakerPfx, setAdd,
      SHOW_SPEAKER_CHANGES, SHOW_SPEAKER_NAMES, initSt, hch1, hch2]

/-- Witness for speaker_change_amended: speaker A is (some "A", none) and
speaker B is (some "B", none). -/
theorem speaker_change_amended_witness :
    ((some "A" : Option String) ≠ some "B" ∨ (none : Option String) ≠ none) ∧
    (((run "en" [Msg.status true "ok",
        Msg.phrase { translatedLanguageCode := some "en", phraseld := some "1",
                     translatedText := some "hello", speakerld := some "A",
                     speakerTag := none },
        Msg.phrase { translatedLanguageCode := some "en", phraseld := some "2",
                     translatedText := some "there", speakerld := some "B",
                     speakerTag := none }]).2 =
      [Cmd.banner,
       Cmd.update (some "1")
         ((if (some "A" : Option String) ≠ none ∨ (none : Option String) ≠ none
           then ">> " else "") ++ "hello"),
       Cmd.commit (some "1")
         ((if (some "A" : Option String) ≠ none ∨ (none : Option String) ≠ none
           then ">> " else "") ++ "hello"),
       Cmd.update (some "2") (">> " ++ "there")]) ∧
    (run "en" [Msg.status true "ok",
        Msg.phrase { translatedLanguageCode := some "en", phraseld := some "1",
                     translatedText := some "hello", speakerld := some "A",
                     speakerTag := none },
        Msg.phrase { translatedLanguageCode := some "en", phraseld := some "2",
                     translatedText := some "there", speakerld := some "B",
                     speakerTag := none }]).1.last_speaker_id = some "B" ∧
    (run "en" [Msg.status true "ok",
        Msg.phrase { translatedLanguageCode := some "en", phraseld := some "1",
                     translatedText := some "hello", speakerld := some "A",
                     speakerTag := none },
        Msg.phrase { translatedLanguageCode := some "en", phraseld := some "2",
                     translatedText := some "there", speakerld := some "B",
                     speakerTag := none }]).1.last_speaker_tag = none) :=
  ⟨Or.inl (by decide),
   speaker_change_amended (some "A") none (some "B") none "hello" "there"
     (Or.inl (by decide))⟩

end Captions
